import Mathlib

/-!
A shallow embedding, in Lean 4, of the analytics aggregation and leaderboard
ranking pipeline of the crown-board repository, together with theorems that
settle the frozen specification claims against it.

Modelling conventions used throughout:

* JavaScript runtime values that matter to the pipeline (fields of raw API
  records) are modelled by the inductive `RawVal` (undefined / null / number /
  string); JS numbers are modelled by `JSNum := Option ℚ` where `none` stands
  for NaN and `some q` for the finite number `q` (the pipeline never produces
  infinities).  JS truthiness and the `||` / `??` operators are modelled
  explicitly.
* A JS `Map` is modelled by an association list in insertion order
  (`AList α := List (String × α)`): `Map.set` on a fresh key appends, on an
  existing key it replaces the value in place, and `Map.entries()` iterates
  in insertion order, exactly like the ECMAScript `Map`.
* `Array.prototype.sort` with the comparator `(a, b) => keyOf b - keyOf a` is a
  stable sort (ECMA-262) whose result is determined by the total preorder the
  comparator induces; it is modelled by a stable insertion sort `sortByDesc`
  that places each element after all previously placed elements with an equal
  or larger key.
* Timestamps are integers (milliseconds); `new Date().setHours(0,0,0,0)` and
  `setDate(getDate() - n)` are modelled over a fixed-offset (DST-free) clock
  whose local midnight of the day containing `t` is `t - t % 86400000`.
-/

namespace Crownboard

/-! ## JS value model -/

/-- A JavaScript value as it occurs in the fields of raw API records:
`vundef` = `undefined` (also: absent field), `vnull` = `null`,
`vnum q` = a finite number, `vstr s` = a string. -/
inductive RawVal where
  | vundef
  | vnull
  | vnum (q : ℚ)
  | vstr (s : String)
deriving DecidableEq, Repr

/-- A JS number: `none` is NaN, `some q` a finite value. -/
abbrev JSNum := Option ℚ

/-- JS truthiness of a `RawVal` (`undefined`, `null`, `0`, `""` are falsy). -/
def truthyV : RawVal → Bool
  | .vundef => false
  | .vnull => false
  | .vnum q => q ≠ 0
  | .vstr s => s ≠ ""

/-- JS truthiness of a `JSNum` (NaN and `0` are falsy). -/
def truthyN : JSNum → Bool
  | none => false
  | some q => q ≠ 0

/-- The JS `a || b` operator on raw values. -/
def orV (a b : RawVal) : RawVal := if truthyV a then a else b

/-- The JS `a || b` operator on numbers. -/
def orN (a b : JSNum) : JSNum := if truthyN a then a else b

/-- Whether a `RawVal` is nullish (`undefined` or `null`), for the JS `??`
operator. -/
def nullish : RawVal → Bool
  | .vundef => true
  | .vnull => true
  | _ => false

/-- The JS `a ?? b` operator. -/
def coalesce (a b : RawVal) : RawVal := if nullish a then b else a

/-- Reads a run of decimal digits; returns the value of the run, the number of
digits read, and the remaining input. -/
def readDigits : List Char → Nat × Nat × List Char
  | [] => (0, 0, [])
  | c :: cs =>
    if c.isDigit then
      let (v, n, rest) := readDigits cs
      ((c.toNat - 48) * 10 ^ n + v, n + 1, rest)
    else (0, 0, c :: cs)

/-- Reads a JS decimal literal (optional sign, integer digits, optional `.`
and fraction digits) from the head of the input; `none` when no digits are
found.  Exponents, hex literals and leading whitespace do not occur in the
data handled by this pipeline and are not modelled. -/
def readDecimal (cs : List Char) : Option (ℚ × List Char) :=
  let signed : ℚ × List Char :=
    match cs with
    | '-' :: rest => (-1, rest)
    | '+' :: rest => (1, rest)
    | _ => (1, cs)
  let (ip, nInt, cs2) := readDigits signed.2
  match cs2 with
  | '.' :: cs3 =>
    let (fp, nFrac, cs4) := readDigits cs3
    if nInt = 0 ∧ nFrac = 0 then none
    else some (signed.1 * ((ip : ℚ) + (fp : ℚ) / (10 ^ nFrac : ℚ)), cs4)
  | _ => if nInt = 0 then none else some (signed.1 * (ip : ℚ), cs2)

/-- JS `Number(s)` on a string: `""` converts to `0`, a complete decimal
literal converts to its value, anything else to NaN. -/
def strToNumber (s : String) : JSNum :=
  if s = "" then some 0
  else
    match readDecimal s.toList with
    | some (q, []) => some q
    | _ => none

/-- JS `Number(v)`: `undefined` is NaN, `null` is `0`. -/
def toNumber : RawVal → JSNum
  | .vundef => none
  | .vnull => some 0
  | .vnum q => some q
  | .vstr s => strToNumber s

/-- JS `parseFloat(v)`: converts to string, then reads the longest decimal
prefix; NaN when the input does not start with a number
(`parseFloat("undefined")` and `parseFloat("null")` are NaN). -/
def parseFloatV : RawVal → JSNum
  | .vundef => none
  | .vnull => none
  | .vnum q => some q
  | .vstr s => (readDecimal s.toList).map Prod.fst

/-- JS `String(v)`.  Only string keys produced from string or integer fields
matter to the pipeline; a non-integral rational is rendered via `toString`
(a harmless deviation from JS float formatting, unused by the claims). -/
def jsToString : RawVal → String
  | .vundef => "undefined"
  | .vnull => "null"
  | .vnum q => toString q
  | .vstr s => s

/-! ## JS `Map` model: association list in insertion order -/

/-- A JS `Map` with string keys, as an association list in insertion order. -/
abbrev AList (α : Type) := List (String × α)

/-- `Map.get`: the value bound to `k`, if any. -/
def AList.find (m : AList α) (k : String) : Option α :=
  match m with
  | [] => none
  | (k', v) :: rest => if k' = k then some v else AList.find rest k

/-- `Map.set`: replaces the binding of `k` in place when present, appends a
fresh binding otherwise (insertion order preserved, like the JS `Map`). -/
def AList.set (m : AList α) (k : String) (v : α) : AList α :=
  match m with
  | [] => [(k, v)]
  | (k', v') :: rest =>
    if k' = k then (k, v) :: rest else (k', v') :: AList.set rest k v

/-- The keys of the map, in insertion order. -/
def AList.keys (m : AList α) : List String := m.map Prod.fst

theorem AList.find_set_self (m : AList α) (k : String) (v : α) :
    (m.set k v).find k = some v := by
  induction m with
  | nil => simp [AList.set, AList.find]
  | cons kv rest ih =>
    by_cases h : kv.1 = k <;> simp [AList.set, AList.find, h, ih]

theorem AList.find_set_ne (m : AList α) (k k' : String) (v : α) (h : k ≠ k') :
    (m.set k v).find k' = m.find k' := by
  induction m with
  | nil => simp [AList.set, AList.find, h]
  | cons kv rest ih =>
    by_cases hk : kv.1 = k
    · simp [AList.set, AList.find, hk, h]
    · simp only [AList.set, hk, if_false]
      by_cases hk' : kv.1 = k' <;> simp [AList.find, hk', ih]

theorem AList.keys_set_of_mem (m : AList α) (k : String) (v : α)
    (h : k ∈ m.keys) : (m.set k v).keys = m.keys := by
  induction m with
  | nil => simp [AList.keys] at h
  | cons kv rest ih =>
    by_cases hk : kv.1 = k
    · simp [AList.set, AList.keys, hk]
    · have h' : k ∈ AList.keys rest := by
        simp [AList.keys] at h
        rcases h with h | h
        · exact absurd h.symm hk
        · simpa [AList.keys] using h
      have ih' : List.map Prod.fst (AList.set rest k v) =
          List.map Prod.fst rest := ih h'
      simp [AList.set, AList.keys, hk, ih']

theorem AList.keys_set_of_not_mem (m : AList α) (k : String) (v : α)
    (h : k ∉ m.keys) : (m.set k v).keys = m.keys ++ [k] := by
  induction m with
  | nil => simp [AList.set, AList.keys]
  | cons kv rest ih =>
    have hk : kv.1 ≠ k := by
      intro hkk
      exact h (by simp [AList.keys, hkk])
    have h' : k ∉ AList.keys rest := by
      intro hmem
      exact h (by simp [AList.keys] at hmem ⊢; exact Or.inr hmem)
    have ih' : List.map Prod.fst (AList.set rest k v) =
        List.map Prod.fst rest ++ [k] := ih h'
    simp [AList.set, AList.keys, hk, ih']

theorem AList.find_isSome_iff_mem_keys (m : AList α) (k : String) :
    (m.find k).isSome = true ↔ k ∈ m.keys := by
  induction m with
  | nil => simp [AList.find, AList.keys]
  | cons kv rest ih =>
    by_cases hk : kv.1 = k
    · simp [AList.find, AList.keys, hk]
    · have h1 : AList.find (kv :: rest) k = AList.find rest k := by
        simp [AList.find, hk]
      rw [h1, ih]
      show _ ↔ k ∈ List.map Prod.fst (kv :: rest)
      rw [List.map_cons, List.mem_cons]
      constructor
      · exact Or.inr
      · rintro (h | h)
        · exact absurd h.symm hk
        · exact h

theorem AList.find_eq_none_iff_not_mem_keys (m : AList α) (k : String) :
    m.find k = none ↔ k ∉ m.keys := by
  rw [← AList.find_isSome_iff_mem_keys]
  cases m.find k <;> simp

/-! ## First-occurrence deduplication (the JS `Array.from(new Set(l))`) -/

/-- `Array.from(new Set(l))`: the elements of `l` with duplicates removed,
keeping the first occurrence of each, in order. -/
def dedupFirst (l : List String) : List String :=
  l.foldl (fun acc x => if x ∈ acc then acc else acc ++ [x]) []

theorem dedupFirst_go_nodup (l : List String) (acc : List String)
    (h : acc.Nodup) :
    (l.foldl (fun acc x => if x ∈ acc then acc else acc ++ [x]) acc).Nodup := by
  induction l generalizing acc with
  | nil => simpa using h
  | cons x xs ih =>
    by_cases hx : x ∈ acc
    · simpa [List.foldl, hx] using ih acc h
    · have : (acc ++ [x]).Nodup := by
        simp [List.nodup_append, h, hx]
      simpa [List.foldl, hx] using ih (acc ++ [x]) this

theorem dedupFirst_nodup (l : List String) : (dedupFirst l).Nodup :=
  dedupFirst_go_nodup l [] (by simp)

theorem dedupFirst_go_mem (l : List String) (acc : List String) (a : String) :
    a ∈ l.foldl (fun acc x => if x ∈ acc then acc else acc ++ [x]) acc ↔
      a ∈ acc ∨ a ∈ l := by
  induction l generalizing acc with
  | nil => simp
  | cons x xs ih =>
    by_cases hx : x ∈ acc
    · simp only [List.foldl_cons, if_pos hx]
      rw [ih]
      constructor
      · rintro (h | h)
        · exact Or.inl h
        · exact Or.inr (List.mem_cons_of_mem _ h)
      · rintro (h | h)
        · exact Or.inl h
        · rcases List.mem_cons.mp h with rfl | h
          · exact Or.inl hx
          · exact Or.inr h
    · simp only [List.foldl_cons, if_neg hx]
      rw [ih]
      constructor
      · rintro (h | h)
        · rcases List.mem_append.mp h with h | h
          · exact Or.inl h
          · rcases List.mem_singleton.mp h with rfl
            exact Or.inr (List.mem_cons_self _ _)
        · exact Or.inr (List.mem_cons_of_mem _ h)
      · rintro (h | h)
        · exact Or.inl (List.mem_append.mpr (Or.inl h))
        · rcases List.mem_cons.mp h with rfl | h
          · exact Or.inl (List.mem_append.mpr (Or.inr (List.mem_singleton.mpr rfl)))
          · exact Or.inr h

theorem mem_dedupFirst (l : List String) (a : String) :
    a ∈ dedupFirst l ↔ a ∈ l := by
  rw [dedupFirst, dedupFirst_go_mem]
  simp

theorem dedupFirst_toFinset (l : List String) :
    (dedupFirst l).toFinset = l.toFinset := by
  ext a
  simp [List.mem_toFinset, mem_dedupFirst]

theorem dedupFirst_length (l : List String) :
    (dedupFirst l).length = l.toFinset.card := by
  rw [← dedupFirst_toFinset,
    List.toFinset_card_of_nodup (dedupFirst_nodup l)]

/-! ## The grouping loops

Each of the three aggregation loops in `src/lib/leaderboard.ts` (and the
spend loop in `src/lib/whop/data.ts`) has the same shape: walk the records in
input order; for a record with a grouping key, either update the existing map
entry in place or insert a fresh entry.  `groupStep`/`groupBy` capture that
shape; each concrete loop is an instance. -/

section Grouping

variable {T V : Type} (key : T → Option String) (init : T → V) (upd : V → T → V)

/-- One iteration of a grouping loop: skip the record when it has no grouping
key (`none`); otherwise update the existing entry in place or append a fresh
one. -/
def groupStep (m : AList V) (x : T) : AList V :=
  match key x with
  | none => m
  | some k =>
    match m.find k with
    | some v => m.set k (upd v x)
    | none => m.set k (init x)

/-- A whole grouping loop over the records in input order, starting from the
empty map (`new Map()`). -/
def groupBy (l : List T) : AList V :=
  l.foldl (groupStep key init upd) []

theorem keys_groupStep (m : AList V) (x : T) :
    (groupStep key init upd m x).keys =
      match key x with
      | none => m.keys
      | some k => if k ∈ m.keys then m.keys else m.keys ++ [k] := by
  cases hx : key x with
  | none => simp [groupStep, hx]
  | some k =>
    by_cases hk : k ∈ m.keys
    · have : (m.find k).isSome = true := (m.find_isSome_iff_mem_keys k).mpr hk
      rcases Option.isSome_iff_exists.mp this with ⟨v, hv⟩
      simp [groupStep, hx, hv, hk, AList.keys_set_of_mem m k _ hk]
    · have : m.find k = none := (m.find_eq_none_iff_not_mem_keys k).mpr hk
      simp [groupStep, hx, this, hk, AList.keys_set_of_not_mem m k _ hk]

theorem keys_groupBy_go (l : List T) (m : AList V) :
    (l.foldl (groupStep key init upd) m).keys =
      (l.filterMap key).foldl
        (fun acc k => if k ∈ acc then acc else acc ++ [k]) m.keys := by
  induction l generalizing m with
  | nil => simp
  | cons x xs ih =>
    cases hx : key x with
    | none =>
      have hstep : groupStep key init upd m x = m := by simp [groupStep, hx]
      simp [List.foldl_cons, hstep, ih, List.filterMap_cons, hx]
    | some k =>
      have hkeys := keys_groupStep key init upd m x
      rw [hx] at hkeys
      simp only [List.foldl_cons, List.filterMap_cons, hx]
      rw [ih, hkeys]

theorem keys_groupBy (l : List T) :
    (groupBy key init upd l).keys = dedupFirst (l.filterMap key) := by
  rw [groupBy, keys_groupBy_go]
  rfl

theorem nodup_keys_groupBy (l : List T) :
    (groupBy key init upd l).keys.Nodup := by
  rw [keys_groupBy]
  exact dedupFirst_nodup _

theorem length_groupBy (l : List T) :
    (groupBy key init upd l).length = (l.filterMap key).toFinset.card := by
  have h1 : (groupBy key init upd l).length =
      (groupBy key init upd l).keys.length := by
    simp [AList.keys]
  rw [h1, keys_groupBy, dedupFirst_length]

theorem find_groupStep_of_key_ne (m : AList V) (x : T) (a : String)
    (h : key x ≠ some a) :
    (groupStep key init upd m x).find a = m.find a := by
  cases hx : key x with
  | none => simp [groupStep, hx]
  | some k =>
    have hka : k ≠ a := by
      intro hk
      exact h (hk ▸ hx)
    cases hfind : m.find k with
    | some v => simp [groupStep, hx, hfind, AList.find_set_ne m k a _ hka]
    | none => simp [groupStep, hx, hfind, AList.find_set_ne m k a _ hka]

theorem find_groupBy_go (l : List T) (m : AList V) (a : String) :
    (l.foldl (groupStep key init upd) m).find a =
      match m.find a with
      | some v => some ((l.filter (fun x => key x = some a)).foldl upd v)
      | none =>
        match l.filter (fun x => key x = some a) with
        | [] => none
        | x :: xs => some (xs.foldl upd (init x)) := by
  induction l generalizing m with
  | nil => cases hfind : m.find a <;> simp [hfind]
  | cons x xs ih =>
    by_cases hx : key x = some a
    · cases hfind : m.find a with
      | some v =>
        have hstep : groupStep key init upd m x = m.set a (upd v x) := by
          simp [groupStep, hx, hfind]
        have hfind' : (groupStep key init upd m x).find a = some (upd v x) := by
          rw [hstep]; exact AList.find_set_self m a _
        rw [List.foldl_cons, ih, hfind']
        simp [List.filter_cons, hx]
      | none =>
        have hstep : groupStep key init upd m x = m.set a (init x) := by
          simp [groupStep, hx, hfind]
        have hfind' : (groupStep key init upd m x).find a = some (init x) := by
          rw [hstep]; exact AList.find_set_self m a _
        rw [List.foldl_cons, ih, hfind']
        simp [List.filter_cons, hx]
    · have hstep := find_groupStep_of_key_ne key init upd m x a hx
      rw [List.foldl_cons, ih, hstep]
      simp [List.filter_cons, hx]

/-- The binding a grouping loop produces for key `a`: nothing when no input
record maps to `a`; otherwise the fold of the updates over all records mapping
to `a`, in input order, seeded by `init` of the first such record. -/
theorem find_groupBy (l : List T) (a : String) :
    (groupBy key init upd l).find a =
      match l.filter (fun x => key x = some a) with
      | [] => none
      | x :: xs => some (xs.foldl upd (init x)) := by
  rw [groupBy, find_groupBy_go]
  simp [AList.find]

end Grouping

/-! ## The sort

`entries.sort((a, b) => keyOf b - keyOf a)` sorts descending by `keyOf` and,
being stable (ECMA-262 `Array.prototype.sort`), keeps the original relative
order of elements whose keys are equal.  Any stable sort consistent with the
comparator's total preorder produces the same list, so the call is modelled by
a stable insertion sort: each element is inserted after every already-placed
element with an equal or larger key. -/

section Sorting

variable {α : Type} {β : Type} [LinearOrder β] (key : α → β)

/-- Inserts `x` into a descending-sorted list, after all elements whose key is
`≥ key x` (so insertion is stable). -/
def insertDesc (x : α) : List α → List α
  | [] => [x]
  | y :: ys => if key y < key x then x :: y :: ys else y :: insertDesc x ys

/-- The model of `.sort((a, b) => keyOf b - keyOf a)`: stable sort, descending
by `keyOf`. -/
def sortByDesc (l : List α) : List α :=
  l.foldl (fun acc x => insertDesc key x acc) []

theorem perm_insertDesc (x : α) (l : List α) :
    List.Perm (insertDesc key x l) (x :: l) := by
  induction l with
  | nil => simp [insertDesc]
  | cons y ys ih =>
    by_cases h : key y < key x
    · simp [insertDesc, h]
    · simp only [insertDesc, if_neg h]
      exact (ih.cons y).trans (List.Perm.swap x y ys)

theorem length_insertDesc (x : α) (l : List α) :
    (insertDesc key x l).length = l.length + 1 := by
  simpa using (perm_insertDesc key x l).length_eq

theorem sortByDesc_go_perm (l acc : List α) :
    List.Perm (l.foldl (fun acc x => insertDesc key x acc) acc) (acc ++ l) := by
  induction l generalizing acc with
  | nil => simp
  | cons x xs ih =>
    have h1 : List.Perm
        ((x :: xs).foldl (fun acc x => insertDesc key x acc) acc)
        (insertDesc key x acc ++ xs) := by
      simpa [List.foldl_cons] using ih (insertDesc key x acc)
    have h2 : List.Perm (insertDesc key x acc ++ xs) ((x :: acc) ++ xs) :=
      (perm_insertDesc key x acc).append_right xs
    have h3 : List.Perm ((x :: acc) ++ xs) (acc ++ x :: xs) := by
      simpa using List.perm_middle.symm
    exact (h1.trans h2).trans h3

theorem perm_sortByDesc (l : List α) : List.Perm (sortByDesc key l) l := by
  simpa using sortByDesc_go_perm key l []

theorem length_sortByDesc (l : List α) :
    (sortByDesc key l).length = l.length :=
  (perm_sortByDesc key l).length_eq

/-- Descending-sortedness, as pairwise key order. -/
def SortedDesc (l : List α) : Prop :=
  l.Pairwise (fun a b => key b ≤ key a)

theorem sortedDesc_insertDesc (x : α) (l : List α)
    (h : SortedDesc key l) : SortedDesc key (insertDesc key x l) := by
  induction l with
  | nil => simp [insertDesc, SortedDesc]
  | cons y ys ih =>
    rcases (List.pairwise_cons.mp h) with ⟨hy, hys⟩
    by_cases hlt : key y < key x
    · simp only [insertDesc, if_pos hlt]
      refine List.pairwise_cons.mpr ⟨?_, h⟩
      intro z hz
      rcases List.mem_cons.mp hz with rfl | hz
      · exact le_of_lt hlt
      · exact (hy z hz).trans (le_of_lt hlt)
    · simp only [insertDesc, if_neg hlt]
      refine List.pairwise_cons.mpr ⟨?_, ih hys⟩
      intro z hz
      have hz' : z ∈ x :: ys := (perm_insertDesc key x ys).mem_iff.mp hz
      rcases List.mem_cons.mp hz' with rfl | hz''
      · exact le_of_not_lt hlt
      · exact hy z hz''

theorem sortedDesc_sortByDesc_go (l acc : List α) (h : SortedDesc key acc) :
    SortedDesc key (l.foldl (fun acc x => insertDesc key x acc) acc) := by
  induction l generalizing acc with
  | nil => simpa using h
  | cons x xs ih =>
    simpa [List.foldl_cons] using ih _ (sortedDesc_insertDesc key x acc h)

theorem sortedDesc_sortByDesc (l : List α) : SortedDesc key (sortByDesc key l) :=
  sortedDesc_sortByDesc_go key l [] (by simp [SortedDesc])

theorem filter_insertDesc_of_neg (x : α) (l : List α) (p : α → Bool)
    (hx : p x = false) : (insertDesc key x l).filter p = l.filter p := by
  induction l with
  | nil => simp [insertDesc, hx]
  | cons y ys ih =>
    by_cases h : key y < key x
    · simp [insertDesc, h, List.filter_cons, hx]
    · simp only [insertDesc, if_neg h]
      simp [List.filter_cons, ih]

theorem filter_eqKey_of_all_lt (l : List α) (c : β)
    (h : ∀ z ∈ l, key z < c) :
    l.filter (fun y => key y = c) = [] := by
  rw [List.filter_eq_nil_iff]
  intro a ha
  simp only [decide_eq_true_eq]
  exact ne_of_lt (h a ha)

theorem filter_insertDesc_eqKey (x : α) (l : List α) (c : β)
    (hx : key x = c) (hl : SortedDesc key l) :
    (insertDesc key x l).filter (fun y => key y = c) =
      l.filter (fun y => key y = c) ++ [x] := by
  induction l with
  | nil => simp [insertDesc, List.filter_cons, hx]
  | cons y ys ih =>
    rcases (List.pairwise_cons.mp hl) with ⟨hy, hys⟩
    by_cases hlt : key y < key x
    · have hrest : (y :: ys).filter (fun z => key z = c) = [] := by
        refine filter_eqKey_of_all_lt key (y :: ys) c ?_
        intro z hz
        rcases List.mem_cons.mp hz with rfl | hz
        · exact hx ▸ hlt
        · exact lt_of_le_of_lt (hy z hz) (hx ▸ hlt)
      simp only [insertDesc, if_pos hlt]
      rw [List.filter_cons, if_pos (by simpa using hx), hrest]
      simp
    · simp only [insertDesc, if_neg hlt]
      rw [List.filter_cons, List.filter_cons, ih hys]
      by_cases hyc : key y = c
      · simp [hyc]
      · simp [hyc]

theorem filter_sortByDesc_go_eqKey (l acc : List α) (c : β)
    (h : SortedDesc key acc) :
    (l.foldl (fun acc x => insertDesc key x acc) acc).filter
        (fun y => key y = c) =
      acc.filter (fun y => key y = c) ++ l.filter (fun y => key y = c) := by
  induction l generalizing acc with
  | nil => simp
  | cons x xs ih =>
    have hacc' := sortedDesc_insertDesc key x acc h
    by_cases hx : key x = c
    · rw [List.foldl_cons, ih _ hacc',
        filter_insertDesc_eqKey key x acc c hx h]
      rw [List.filter_cons, if_pos (by simpa using hx)]
      simp
    · rw [List.foldl_cons, ih _ hacc',
        filter_insertDesc_of_neg key x acc _ (by simpa using hx)]
      rw [List.filter_cons, if_neg (by simpa using hx)]

/-- Stability of the sort: the elements whose key equals any fixed value `c`
appear in the sorted output in exactly their input order. -/
theorem filter_sortByDesc_eqKey (l : List α) (c : β) :
    (sortByDesc key l).filter (fun y => key y = c) =
      l.filter (fun y => key y = c) := by
  simpa using filter_sortByDesc_go_eqKey key l [] c (by simp [SortedDesc])

end Sorting

section SortingPairs

variable {γ : Type} {β : Type} [LinearOrder β] (key : γ → β)

theorem map_snd_insertDesc (x : String × γ) (l : List (String × γ)) :
    (insertDesc (fun kv => key kv.2) x l).map Prod.snd =
      insertDesc key x.2 (l.map Prod.snd) := by
  induction l with
  | nil => simp [insertDesc]
  | cons y ys ih =>
    by_cases h : key y.2 < key x.2
    · simp [insertDesc, h]
    · simp [insertDesc, h, ih]

theorem map_snd_sortByDesc_go (l acc : List (String × γ)) :
    (l.foldl (fun acc x => insertDesc (fun kv => key kv.2) x acc) acc).map
        Prod.snd =
      (l.map Prod.snd).foldl (fun acc x => insertDesc key x acc)
        (acc.map Prod.snd) := by
  induction l generalizing acc with
  | nil => simp
  | cons x xs ih =>
    rw [List.foldl_cons, ih, map_snd_insertDesc, List.map_cons,
      List.foldl_cons]

/-- Sorting key-value pairs by a key of the value and then dropping the keys
is the same as dropping the keys and sorting. -/
theorem map_snd_sortByDesc (l : List (String × γ)) :
    (sortByDesc (fun kv => key kv.2) l).map Prod.snd =
      sortByDesc key (l.map Prod.snd) := by
  simpa [sortByDesc] using map_snd_sortByDesc_go key l []

end SortingPairs

/-! ## Date-range filtering (`filterByDateRange`, src/lib/leaderboard.ts) -/

/-- A date-string field of a record: `none` when the field is absent,
`undefined`, or the empty string (all falsy under `||`); `some d` when a
non-empty string is present, where `d : Option Int` is the millisecond
timestamp `new Date(s)` yields (`none` for an Invalid Date). -/
abbrev DateField := Option (Option Int)

/-- The four literal range values `today`, `7d`, `30d`, `all`. -/
inductive DateRange where
  | today
  | d7
  | d30
  | all
deriving DecidableEq, Repr

/-- Milliseconds per day. -/
def dayMs : Int := 86400000

/-- Local midnight of the day containing `t` (`setHours(0, 0, 0, 0)`), over a
fixed-offset clock; `Int.emod` is non-negative here, so `midnight t ≤ t`. -/
def midnight (t : Int) : Int := t - t % dayMs

/-- The cutoff computed for a range from the current time `now`: `today` is
local midnight of the current day; `7d`/`30d` run `setDate(now.getDate() - n)`
and then `setHours(0, 0, 0, 0)`, i.e. local midnight `n` calendar days
earlier.  For `all` the switch has no case (the function returns before the
cutoff is used) and `cutoffDate` remains `now`. -/
def cutoff (range : DateRange) (now : Int) : Int :=
  match range with
  | .today => midnight now
  | .d7 => midnight now - 7 * dayMs
  | .d30 => midnight now - 30 * dayMs
  | .all => now

/-- `const dateStr = item.createdAt || item.lastActivityAt`. -/
def resolveDate (createdAt lastActivityAt : DateField) : DateField :=
  match createdAt with
  | some d => some d
  | none => lastActivityAt

/-- The body of the filter callback: `if (!dateStr) return false;
return new Date(dateStr) >= cutoffDate` (a comparison against an Invalid
Date is `NaN >= cutoff`, which is false). -/
def dateRetained (range : DateRange) (now : Int)
    (createdAt lastActivityAt : DateField) : Bool :=
  match resolveDate createdAt lastActivityAt with
  | none => false
  | some none => false
  | some (some t) => cutoff range now ≤ t

/-- `filterByDateRange<T extends { createdAt?; lastActivityAt? }>`: generic
over the record type through the two date-field projections.  `all` returns
the input unchanged; any other range keeps the records whose resolved date is
at or after the cutoff. -/
def filterByDateRange {T : Type} (createdAt lastActivityAt : T → DateField)
    (data : List T) (range : DateRange) (now : Int) : List T :=
  if range = .all then data
  else
    data.filter (fun item =>
      dateRetained range now (createdAt item) (lastActivityAt item))

/-! ## Canonical record shapes (src/lib/whop.ts interfaces) -/

/-- The `Payment` interface.  `amount : ℚ` models a finite JS number (the
leaderboard arithmetic itself never produces NaN from finite inputs); optional
affiliate fields are `Option String`, where `some ""` is a present but falsy
string.  The interface has no `lastActivityAt` field, so the generic date
filter reads `undefined` there. -/
structure Payment where
  id : String
  userId : String
  userName : String
  amount : ℚ
  currency : String
  productId : String
  productName : String
  affiliateId : Option String
  affiliateName : Option String
  createdAt : DateField
deriving DecidableEq, Repr

/-- The `Membership` interface; `activityCount` is an integer
(`parseInt`-normalized upstream).  It has no `createdAt` field. -/
structure Membership where
  id : String
  userId : String
  userName : String
  productId : String
  productName : String
  status : String
  lastActivityAt : DateField
  activityCount : Int
deriving DecidableEq, Repr

/-- The `LeaderboardEntry` interface: `amount?` is optional (absent on the
most-active leaderboard). -/
structure LeaderboardEntry where
  rank : Nat
  name : String
  amount : Option ℚ
  count : Int
deriving DecidableEq, Repr

/-- The sort key `(entry.amount || 0)` used by the spend and affiliate
comparators. -/
def amt (e : LeaderboardEntry) : ℚ := e.amount.getD 0

/-- `.map((entry, index) => ({ ...entry, rank: index + 1 }))` with the index
starting at `n`. -/
def assignRanksFrom (n : Nat) :
    List LeaderboardEntry → List LeaderboardEntry
  | [] => []
  | e :: es => { e with rank := n + 1 } :: assignRanksFrom (n + 1) es

/-- Rank assignment after sorting: entry `i` (0-based) gets rank `i + 1`. -/
def assignRanks (l : List LeaderboardEntry) : List LeaderboardEntry :=
  assignRanksFrom 0 l

/-! ## getTopSpenders (src/lib/leaderboard.ts lines 61-95) -/

/-- The value stored per user by the spend grouping loop:
`{ name: string; total: number }`. -/
structure NameTotal where
  name : String
  total : ℚ
deriving DecidableEq, Repr

/-- `const filteredPayments = filterByDateRange(payments, range)`, shared by
`getTopSpenders` and `getTopAffiliates`.  The `Payment` interface has no
`lastActivityAt`, so that side of the fallback reads `undefined`. -/
def filteredPayments (payments : List Payment) (range : DateRange)
    (now : Int) : List Payment :=
  filterByDateRange Payment.createdAt (fun _ => none) payments range now

/-- The spend grouping loop (lines 68-78): group by `payment.userId`; an
existing entry gets `existing.total += payment.amount` (its name is not
touched); a fresh entry records `payment.userName` and `payment.amount`. -/
def userTotals (payments : List Payment) : AList NameTotal :=
  groupBy (fun p => some p.userId)
    (fun p => { name := p.userName, total := p.amount })
    (fun v p => { v with total := v.total + p.amount })
    payments

/-- The entry built from one `[userId, data]` pair of `userTotals` (lines
82-87): `count` re-scans the filtered payments for that user. -/
def spenderEntry (filteredPayments : List Payment)
    (kv : String × NameTotal) : LeaderboardEntry :=
  { rank := 0
    name := kv.2.name
    amount := some kv.2.total
    count := ((filteredPayments.filter (fun p => p.userId = kv.1)).length : Int) }

/-- The pre-sort entry list of `getTopSpenders`, with each entry still paired
with the `userId` it was built from. -/
def spenderPre (payments : List Payment) (range : DateRange) (now : Int) :
    List (String × LeaderboardEntry) :=
  (userTotals (filteredPayments payments range now)).map
    (fun kv => (kv.1, spenderEntry (filteredPayments payments range now) kv))

/-- `getTopSpenders`: filter by date range, group by user, convert, sort by
total descending, assign ranks by position. -/
def getTopSpenders (payments : List Payment) (range : DateRange) (now : Int) :
    List LeaderboardEntry :=
  assignRanks (sortByDesc amt
    ((userTotals (filteredPayments payments range now)).map
      (spenderEntry (filteredPayments payments range now))))

/-- `getTopSpenders` with each entry still carrying the `userId` it was built
from, used to state per-actor properties; `getTopSpenders` is its
key-erasure (`getTopSpenders_eq_keyed`). -/
def getTopSpendersKeyed (payments : List Payment) (range : DateRange)
    (now : Int) : List (String × LeaderboardEntry) :=
  sortByDesc (fun kv => amt kv.2) (spenderPre payments range now)

theorem getTopSpenders_eq_keyed (payments : List Payment) (range : DateRange)
    (now : Int) :
    getTopSpenders payments range now =
      assignRanks ((getTopSpendersKeyed payments range now).map Prod.snd) := by
  rw [getTopSpenders, getTopSpendersKeyed, spenderPre, map_snd_sortByDesc,
    List.map_map]
  rfl

/-! ## getTopAffiliates (src/lib/leaderboard.ts lines 104-142) -/

/-- The value stored per affiliate:
`{ name: string; total: number; count: number }`. -/
structure AffTotal where
  name : String
  total : ℚ
  count : Int
deriving DecidableEq, Repr

/-- The guard and grouping key of the affiliate loop (line 112):
`if (payment.affiliateId && payment.affiliateName)` — the record contributes
only when both strings are truthy, and the key is `payment.affiliateId`. -/
def affKey (p : Payment) : Option String :=
  match p.affiliateId, p.affiliateName with
  | some aid, some aname => if aid ≠ "" ∧ aname ≠ "" then some aid else none
  | _, _ => none

/-- The affiliate grouping loop (lines 111-125).  In the fresh-entry branch
`payment.affiliateName` is a truthy string by the guard, extracted here with
`getD ""`. -/
def affiliateTotals (payments : List Payment) : AList AffTotal :=
  groupBy affKey
    (fun p => { name := p.affiliateName.getD "", total := p.amount, count := 1 })
    (fun v p => { v with total := v.total + p.amount, count := v.count + 1 })
    payments

/-- The entry built from one `[affiliateId, data]` pair (lines 129-134). -/
def affEntry (kv : String × AffTotal) : LeaderboardEntry :=
  { rank := 0
    name := kv.2.name
    amount := some kv.2.total
    count := kv.2.count }

/-- `getTopAffiliates`: filter by date range, group by affiliate (both
affiliate fields required), convert, sort by total descending, rank. -/
def getTopAffiliates (payments : List Payment) (range : DateRange) (now : Int) :
    List LeaderboardEntry :=
  assignRanks (sortByDesc amt
    ((affiliateTotals (filteredPayments payments range now)).map affEntry))

/-- `getTopAffiliates` with each entry still carrying its `affiliateId`. -/
def getTopAffiliatesKeyed (payments : List Payment) (range : DateRange)
    (now : Int) : List (String × LeaderboardEntry) :=
  sortByDesc (fun kv => amt kv.2)
    ((affiliateTotals (filteredPayments payments range now)).map
      (fun kv => (kv.1, affEntry kv)))

theorem getTopAffiliates_eq_keyed (payments : List Payment) (range : DateRange)
    (now : Int) :
    getTopAffiliates payments range now =
      assignRanks ((getTopAffiliatesKeyed payments range now).map Prod.snd) := by
  rw [getTopAffiliates, getTopAffiliatesKeyed, map_snd_sortByDesc,
    List.map_map]
  rfl

/-! ## getMostActiveMembers (src/lib/leaderboard.ts lines 151-186) -/

/-- The value stored per member:
`{ name: string; totalActivity: number }`. -/
structure NameActivity where
  name : String
  totalActivity : Int
deriving DecidableEq, Repr

/-- The guard and grouping key of the activity loop (line 159): only records
with `membership.status === 'active'` contribute, keyed by `userId`. -/
def activeKey (m : Membership) : Option String :=
  if m.status = "active" then some m.userId else none

/-- The activity grouping loop (lines 158-170). -/
def userActivity (memberships : List Membership) : AList NameActivity :=
  groupBy activeKey
    (fun m => { name := m.userName, totalActivity := m.activityCount })
    (fun v m => { v with totalActivity := v.totalActivity + m.activityCount })
    memberships

/-- The entry built from one `[userId, data]` pair (lines 173-178): no
`amount` field; `count` is the summed activity. -/
def memberEntry (kv : String × NameActivity) : LeaderboardEntry :=
  { rank := 0
    name := kv.2.name
    amount := none
    count := kv.2.totalActivity }

/-- `const filteredMemberships = filterByDateRange(memberships, range)`;
the `Membership` interface has no `createdAt`, so that side of the fallback
reads `undefined`. -/
def filteredMemberships (memberships : List Membership) (range : DateRange)
    (now : Int) : List Membership :=
  filterByDateRange (fun _ => none) Membership.lastActivityAt memberships
    range now

/-- `getMostActiveMembers`: filter by date range (on `lastActivityAt`), group
active memberships by user, sort by summed activity count descending, rank. -/
def getMostActiveMembers (memberships : List Membership) (range : DateRange)
    (now : Int) : List LeaderboardEntry :=
  assignRanks (sortByDesc (fun e => e.count)
    ((userActivity (filteredMemberships memberships range now)).map
      memberEntry))

/-! ## Rank assignment lemmas -/

theorem length_assignRanksFrom (n : Nat) (l : List LeaderboardEntry) :
    (assignRanksFrom n l).length = l.length := by
  induction l generalizing n with
  | nil => rfl
  | cons e es ih => simp [assignRanksFrom, ih]

theorem length_assignRanks (l : List LeaderboardEntry) :
    (assignRanks l).length = l.length :=
  length_assignRanksFrom 0 l

theorem rank_assignRanksFrom (l : List LeaderboardEntry) (n i : Nat)
    (h : i < (assignRanksFrom n l).length) :
    ((assignRanksFrom n l).get ⟨i, h⟩).rank = n + i + 1 := by
  induction l generalizing n i with
  | nil => simp [assignRanksFrom] at h
  | cons e es ih =>
    cases i with
    | zero => rfl
    | succ j =>
      have h' : j < (assignRanksFrom (n + 1) es).length := by
        have := h
        simp only [assignRanksFrom, List.length_cons] at this
        omega
      have hg : ((assignRanksFrom n (e :: es)).get ⟨j + 1, h⟩).rank =
          ((assignRanksFrom (n + 1) es).get ⟨j, h'⟩).rank := rfl
      rw [hg, ih]
      omega

/-- Dense positional ranks: entry `i` (0-based) carries rank `i + 1`. -/
def denseRanks (l : List LeaderboardEntry) : Prop :=
  ∀ i (h : i < l.length), (l.get ⟨i, h⟩).rank = i + 1

theorem denseRanks_assignRanks (l : List LeaderboardEntry) :
    denseRanks (assignRanks l) := by
  intro i h
  have := rank_assignRanksFrom l 0 i h
  simpa [assignRanks] using this

theorem map_amt_assignRanksFrom (n : Nat) (l : List LeaderboardEntry) :
    (assignRanksFrom n l).map amt = l.map amt := by
  induction l generalizing n with
  | nil => rfl
  | cons e es ih => simp [assignRanksFrom, ih, amt]

theorem map_amt_assignRanks (l : List LeaderboardEntry) :
    (assignRanks l).map amt = l.map amt :=
  map_amt_assignRanksFrom 0 l

/-! ## C1: dense ranks and leaderboard size -/

/-- C1: every leaderboard returned by `getTopSpenders`, `getTopAffiliates`
and `getMostActiveMembers` assigns dense ranks — the `rank` of the entry at
0-based position `i` is `i + 1`, so ranks are exactly `1..k` with no gaps or
shared values — and `k` is the number of distinct actor ids among the records
retained for that leaderboard (all date-retained payments for the spend
board; the date-retained payments passing the affiliate guard, keyed by
`affiliateId`, for the affiliate board; the date-retained memberships with
`status === 'active'` for the activity board).  In particular this holds for
every non-empty input record set. -/
theorem C1_dense_ranks (payments : List Payment) (memberships : List Membership)
    (range : DateRange) (now : Int) :
    denseRanks (getTopSpenders payments range now) ∧
    denseRanks (getTopAffiliates payments range now) ∧
    denseRanks (getMostActiveMembers memberships range now) ∧
    (getTopSpenders payments range now).length =
      ((filteredPayments payments range now).map Payment.userId).toFinset.card ∧
    (getTopAffiliates payments range now).length =
      ((filteredPayments payments range now).filterMap affKey).toFinset.card ∧
    (getMostActiveMembers memberships range now).length =
      ((filteredMemberships memberships range now).filterMap
        activeKey).toFinset.card := by
  refine ⟨?_, ?_, ?_, ?_, ?_, ?_⟩
  · rw [getTopSpenders]
    exact denseRanks_assignRanks _
  · rw [getTopAffiliates]
    exact denseRanks_assignRanks _
  · rw [getMostActiveMembers]
    exact denseRanks_assignRanks _
  · rw [getTopSpenders, length_assignRanks, length_sortByDesc,
      List.length_map, userTotals, length_groupBy]
    congr 1
    have : (fun p : Payment => some p.userId) = some ∘ Payment.userId := rfl
    rw [this, List.filterMap_eq_map]
  · rw [getTopAffiliates, length_assignRanks, length_sortByDesc,
      List.length_map, affiliateTotals, length_groupBy]
  · rw [getMostActiveMembers, length_assignRanks, length_sortByDesc,
      List.length_map, userActivity, length_groupBy]

/-! ## C4: stability of the sort on equal totals -/

/-- C4: on the spend leaderboard no value-based tie-break exists: for every
total `c`, the entries whose total is `c` appear in the sorted output in
exactly the order the aggregation produced them (the sort is stable); the
aggregation order is the order of first appearance of each `userId` in the
retained payment list; and the ranked output is exactly that sorted list with
positional ranks. -/
theorem C4_stable_ties (payments : List Payment) (range : DateRange)
    (now : Int) (c : ℚ) :
    (getTopSpendersKeyed payments range now).filter (fun kv => amt kv.2 = c) =
      (spenderPre payments range now).filter (fun kv => amt kv.2 = c) ∧
    (spenderPre payments range now).map Prod.fst =
      (userTotals (filteredPayments payments range now)).keys ∧
    (userTotals (filteredPayments payments range now)).keys =
      dedupFirst ((filteredPayments payments range now).map Payment.userId) ∧
    getTopSpenders payments range now =
      assignRanks ((getTopSpendersKeyed payments range now).map Prod.snd) := by
  refine ⟨?_, ?_, ?_, getTopSpenders_eq_keyed payments range now⟩
  · rw [getTopSpendersKeyed]
    exact filter_sortByDesc_eqKey
      (fun kv : String × LeaderboardEntry => amt kv.2) _ c
  · rw [spenderPre, List.map_map]
    rfl
  · rw [userTotals, keys_groupBy]
    congr 1
    have : (fun p : Payment => some p.userId) = some ∘ Payment.userId := rfl
    rw [this, List.filterMap_eq_map]

/-! ## C5: the date-range filter -/

theorem dateRetained_iff (range : DateRange) (now : Int)
    (createdAt lastActivityAt : DateField) :
    dateRetained range now createdAt lastActivityAt = true ↔
      ∃ t, resolveDate createdAt lastActivityAt = some (some t) ∧
        cutoff range now ≤ t := by
  cases hres : resolveDate createdAt lastActivityAt with
  | none => simp [dateRetained, hres]
  | some o =>
    cases o with
    | none => simp [dateRetained, hres]
    | some t => simp [dateRetained, hres]

/-- C5: `all` is the identity filter; for any other range a record is in the
output iff it is in the input and its resolved date (`createdAt`, else
`lastActivityAt`) is a valid timestamp at or after the range's cutoff
(`today` = local midnight of the current day, `7d`/`30d` = local midnight
`n` days earlier); and a record with no resolvable date is excluded by every
range except `all`. -/
theorem C5_date_filter {T : Type} (createdAt lastActivityAt : T → DateField)
    (data : List T) (range : DateRange) (now : Int) :
    filterByDateRange createdAt lastActivityAt data DateRange.all now = data ∧
    (range ≠ DateRange.all →
      ∀ x, x ∈ filterByDateRange createdAt lastActivityAt data range now ↔
        x ∈ data ∧ ∃ t, resolveDate (createdAt x) (lastActivityAt x) =
          some (some t) ∧ cutoff range now ≤ t) ∧
    (range ≠ DateRange.all → ∀ x,
      (∀ t : Int,
        resolveDate (createdAt x) (lastActivityAt x) ≠ some (some t)) →
      x ∉ filterByDateRange createdAt lastActivityAt data range now) := by
  have hmem : range ≠ DateRange.all →
      ∀ x, x ∈ filterByDateRange createdAt lastActivityAt data range now ↔
        x ∈ data ∧ ∃ t, resolveDate (createdAt x) (lastActivityAt x) =
          some (some t) ∧ cutoff range now ≤ t := by
    intro hr x
    rw [filterByDateRange, if_neg hr, List.mem_filter,
      dateRetained_iff range now (createdAt x) (lastActivityAt x)]
  refine ⟨by simp [filterByDateRange], hmem, ?_⟩
  intro hr x hnone hx
  rcases ((hmem hr x).mp hx).2 with ⟨t, ht, _⟩
  exact hnone t ht

/-- A concrete payment used to witness `C5_date_filter`. -/
def pC5w : Payment :=
  ⟨"w1", "u", "U", 10, "USD", "pr", "Pr", none, none, some (some 86400000)⟩

theorem C5_date_filter_witness :
    pC5w ∈ filterByDateRange Payment.createdAt (fun _ => none) [pC5w]
      DateRange.d7 86400500 :=
  ((C5_date_filter Payment.createdAt (fun _ => none) [pC5w] DateRange.d7
      86400500).2.1 (by decide) pC5w).mpr
    ⟨List.mem_singleton.mpr rfl, 86400000, rfl, by decide⟩

/-! ## C6: the spend sum invariant -/

theorem AList.set_of_find_none (m : AList α) (k : String) (v : α)
    (h : m.find k = none) : m.set k v = m ++ [(k, v)] := by
  induction m with
  | nil => simp [AList.set]
  | cons kv rest ih =>
    by_cases hk : kv.1 = k
    · simp [AList.find, hk] at h
    · simp only [AList.find, hk, if_neg, ite_false] at h
      simp [AList.set, hk, ih h]

theorem AList.sum_map_set_of_find_some {α : Type} (m : AList α) (μ : α → ℚ)
    (k : String) (v w : α) (h : m.find k = some v) :
    ((m.set k w).map (fun kv => μ kv.2)).sum =
      (m.map (fun kv => μ kv.2)).sum + μ w - μ v := by
  induction m with
  | nil => simp [AList.find] at h
  | cons kv rest ih =>
    by_cases hk : kv.1 = k
    · simp only [AList.find, hk, if_true, ite_true, Option.some.injEq] at h
      subst h
      simp [AList.set, hk]
      ring
    · simp only [AList.find, hk, if_neg, ite_false] at h
      simp only [AList.set, hk, ite_false, List.map_cons, List.sum_cons,
        ih h]
      ring

section GroupSum

variable {T V : Type} (key : T → Option String) (init : T → V) (upd : V → T → V)

theorem sum_groupBy_go (μ : V → ℚ) (ν : T → ℚ)
    (hinit : ∀ x, μ (init x) = ν x)
    (hupd : ∀ v x, μ (upd v x) = μ v + ν x)
    (l : List T) (m : AList V) :
    ((l.foldl (groupStep key init upd) m).map (fun kv => μ kv.2)).sum =
      (m.map (fun kv => μ kv.2)).sum +
        ((l.filter (fun x => (key x).isSome)).map ν).sum := by
  induction l generalizing m with
  | nil => simp
  | cons x xs ih =>
    cases hx : key x with
    | none =>
      have hstep : groupStep key init upd m x = m := by simp [groupStep, hx]
      rw [List.foldl_cons, hstep, ih]
      simp [List.filter_cons, hx]
    | some k =>
      cases hfind : m.find k with
      | some v =>
        have hstep : groupStep key init upd m x = m.set k (upd v x) := by
          simp [groupStep, hx, hfind]
        rw [List.foldl_cons, hstep, ih,
          AList.sum_map_set_of_find_some m μ k v _ hfind, hupd]
        simp only [List.filter_cons, hx, Option.isSome_some, if_true]
        simp only [List.map_cons, List.sum_cons]
        ring
      | none =>
        have hstep : groupStep key init upd m x = m ++ [(k, init x)] := by
          rw [groupStep]
          simp only [hx, hfind]
          exact AList.set_of_find_none m k (init x) hfind
        rw [List.foldl_cons, hstep, ih]
        simp only [List.filter_cons, hx, Option.isSome_some, if_true]
        simp [hinit]
        ring

/-- The total of the measure `μ` over a grouping loop's output equals the
total of the per-record contribution `ν` over the contributing records. -/
theorem sum_groupBy (μ : V → ℚ) (ν : T → ℚ)
    (hinit : ∀ x, μ (init x) = ν x)
    (hupd : ∀ v x, μ (upd v x) = μ v + ν x)
    (l : List T) :
    ((groupBy key init upd l).map (fun kv => μ kv.2)).sum =
      ((l.filter (fun x => (key x).isSome)).map ν).sum := by
  rw [groupBy, sum_groupBy_go key init upd μ ν hinit hupd l []]
  simp

end GroupSum

/-- C6: for every payment list and range, the amounts shown on the spend
leaderboard sum to exactly the amounts of the date-retained payment records —
grouping, sorting and ranking neither lose nor double-count any spend. -/
theorem C6_sum_invariant (payments : List Payment) (range : DateRange)
    (now : Int) :
    ((getTopSpenders payments range now).map amt).sum =
      ((filteredPayments payments range now).map Payment.amount).sum := by
  rw [getTopSpenders, map_amt_assignRanks]
  have hperm := (perm_sortByDesc amt
    ((userTotals (filteredPayments payments range now)).map
      (spenderEntry (filteredPayments payments range now)))).map amt
  rw [hperm.sum_eq, List.map_map]
  have hcomp : amt ∘ spenderEntry (filteredPayments payments range now) =
      fun kv : String × NameTotal => kv.2.total := by
    funext kv
    rfl
  rw [hcomp]
  have := sum_groupBy (fun p : Payment => some p.userId)
    (fun p => { name := p.userName, total := p.amount })
    (fun v p => { v with total := v.total + p.amount })
    NameTotal.total Payment.amount (fun _ => rfl) (fun _ _ => rfl)
    (filteredPayments payments range now)
  rw [userTotals, this]
  congr 1
  rw [List.filter_eq_self.mpr]
  intro a _
  simp

/-! ## C2: which record's name an aggregated entry shows -/

theorem find?_eq_head_filter {α : Type} (p : α → Bool) (l : List α) :
    l.find? p = (l.filter p).head? := by
  induction l with
  | nil => rfl
  | cons x xs ih =>
    by_cases hx : p x
    · rw [List.find?_cons_of_pos _ hx, List.filter_cons, if_pos hx]
      rfl
    · rw [List.find?_cons_of_neg _ (by simpa using hx), List.filter_cons,
        if_neg (by simpa using hx), ih]

theorem AList.find_eq_of_mem {α : Type} (m : AList α) (k : String) (v : α)
    (hnd : m.keys.Nodup) (h : (k, v) ∈ m) : m.find k = some v := by
  induction m with
  | nil => simp at h
  | cons kv rest ih =>
    have hnd' : (AList.keys rest).Nodup ∧ kv.1 ∉ AList.keys rest := by
      have := hnd
      rw [AList.keys, List.map_cons, List.nodup_cons] at this
      exact ⟨this.2, this.1⟩
    rcases List.mem_cons.mp h with rfl | h'
    · simp [AList.find]
    · have hk : kv.1 ≠ k := by
        intro he
        have : k ∈ AList.keys rest := by
          rw [AList.keys]
          exact List.mem_map.mpr ⟨(k, v), h', rfl⟩
        exact hnd'.2 (he ▸ this)
      simp [AList.find, hk, ih hnd'.1 h']

theorem foldl_spendUpd_name (v : NameTotal) (xs : List Payment) :
    (xs.foldl (fun v p => { v with total := v.total + p.amount }) v).name =
      v.name := by
  induction xs generalizing v with
  | nil => rfl
  | cons x xs ih => simp [List.foldl_cons, ih]

theorem foldl_affUpd_name (v : AffTotal) (xs : List Payment) :
    (xs.foldl
      (fun v p => { v with total := v.total + p.amount, count := v.count + 1 })
      v).name = v.name := by
  induction xs generalizing v with
  | nil => rfl
  | cons x xs ih => simp [List.foldl_cons, ih]

/-- C2 counterexample: two payments by the same user, the later one carrying
the name `"Alicia"`.  The aggregated spend entry shows `"Alice"`, the name on
the FIRST record — not the name on the last-processed record, as the claim
states. -/
def pC2a : Payment :=
  ⟨"p1", "u1", "Alice", 10, "USD", "pr", "Pr", none, none, some (some 5)⟩

/-- Second payment of the C2 counterexample, same user, different name. -/
def pC2b : Payment :=
  ⟨"p2", "u1", "Alicia", 5, "USD", "pr", "Pr", none, none, some (some 6)⟩

theorem C2_counterexample :
    (getTopSpenders [pC2a, pC2b] DateRange.all 0).map LeaderboardEntry.name =
        ["Alice"] ∧
    pC2b.userName = "Alicia" ∧
    (getTopSpenders [pC2a, pC2b] DateRange.all 0).map LeaderboardEntry.name ≠
        [pC2b.userName] := by
  refine ⟨by decide, rfl, by decide⟩

/-- C2 as amended: when the same actor id appears on several records with
different names, the leaderboard entry shows the name carried by the FIRST
record processed for that key (input order); later records only add to the
totals and never overwrite the name.  This holds for the spend leaderboard
(keyed by `userId`) and the affiliate leaderboard (keyed by `affiliateId`). -/
theorem C2_first_name_wins (payments : List Payment) (range : DateRange)
    (now : Int) :
    (∀ a e, (a, e) ∈ getTopSpendersKeyed payments range now →
      ∃ p, (filteredPayments payments range now).find?
          (fun q => q.userId = a) = some p ∧ e.name = p.userName) ∧
    (∀ a e, (a, e) ∈ getTopAffiliatesKeyed payments range now →
      ∃ p, (filteredPayments payments range now).find?
          (fun q => affKey q = some a) = some p ∧
        e.name = p.affiliateName.getD "") := by
  constructor
  · intro a e hmem
    have hpre : (a, e) ∈ spenderPre payments range now :=
      (perm_sortByDesc (fun kv : String × LeaderboardEntry => amt kv.2)
        (spenderPre payments range now)).mem_iff.mp hmem
    rcases List.mem_map.mp hpre with ⟨kv, hkv, heq⟩
    have ha : kv.1 = a := congrArg Prod.fst heq
    have he : e = spenderEntry (filteredPayments payments range now) kv := by
      have := congrArg Prod.snd heq
      exact this.symm
    have hfind : (userTotals (filteredPayments payments range now)).find a =
        some kv.2 := by
      rw [← ha]
      exact AList.find_eq_of_mem _ kv.1 kv.2
        (nodup_keys_groupBy _ _ _ _) (by rwa [← Prod.mk.eta (p := kv)] at hkv)
    rw [userTotals, find_groupBy] at hfind
    have hfilter :
        (filteredPayments payments range now).filter
            (fun q => decide ((some q.userId : Option String) = some a)) =
          (filteredPayments payments range now).filter
            (fun q => decide (q.userId = a)) := by
      apply List.filter_congr
      intro q _
      simp
    rw [hfilter] at hfind
    cases hcase : (filteredPayments payments range now).filter
        (fun q => decide (q.userId = a)) with
    | nil =>
      rw [hcase] at hfind
      simp at hfind
    | cons x xs =>
      rw [hcase] at hfind
      simp only [Option.some.injEq] at hfind
      refine ⟨x, ?_, ?_⟩
      · rw [find?_eq_head_filter, hcase]
        rfl
      · rw [he, spenderEntry]
        show kv.2.name = x.userName
        rw [← hfind, foldl_spendUpd_name]
  · intro a e hmem
    have hpre : (a, e) ∈ (affiliateTotals
        (filteredPayments payments range now)).map
          (fun kv => (kv.1, affEntry kv)) :=
      (perm_sortByDesc (fun kv : String × LeaderboardEntry => amt kv.2)
        _).mem_iff.mp hmem
    rcases List.mem_map.mp hpre with ⟨kv, hkv, heq⟩
    have ha : kv.1 = a := congrArg Prod.fst heq
    have he : e = affEntry kv := by
      have := congrArg Prod.snd heq
      exact this.symm
    have hfind : (affiliateTotals (filteredPayments payments range now)).find
        a = some kv.2 := by
      rw [← ha]
      exact AList.find_eq_of_mem _ kv.1 kv.2
        (nodup_keys_groupBy _ _ _ _) (by rwa [← Prod.mk.eta (p := kv)] at hkv)
    rw [affiliateTotals, find_groupBy] at hfind
    cases hcase : (filteredPayments payments range now).filter
        (fun q => decide (affKey q = some a)) with
    | nil =>
      rw [hcase] at hfind
      simp at hfind
    | cons x xs =>
      rw [hcase] at hfind
      simp only [Option.some.injEq] at hfind
      refine ⟨x, ?_, ?_⟩
      · rw [find?_eq_head_filter, hcase]
        rfl
      · rw [he, affEntry]
        show kv.2.name = x.affiliateName.getD ""
        rw [← hfind, foldl_affUpd_name]

/-- Concrete payment used to witness `C2_first_name_wins`: one record with a
user name and an affiliate attribution. -/
def pC2w : Payment :=
  ⟨"p1", "u1", "Alice", 10, "USD", "pr", "Pr", some "aff1", some "Bob",
    some (some 5)⟩

theorem C2_first_name_wins_witness :
    (∃ p, (filteredPayments [pC2w] DateRange.all 0).find?
        (fun q => q.userId = "u1") = some p ∧ "Alice" = p.userName) ∧
    (∃ p, (filteredPayments [pC2w] DateRange.all 0).find?
        (fun q => affKey q = some "aff1") = some p ∧
      "Bob" = p.affiliateName.getD "") :=
  ⟨(C2_first_name_wins [pC2w] DateRange.all 0).1 "u1"
      ⟨0, "Alice", some 10, 1⟩ (by decide),
    (C2_first_name_wins [pC2w] DateRange.all 0).2 "aff1"
      ⟨0, "Bob", some 10, 1⟩ (by decide)⟩

/-! ## C3: which payments the affiliate aggregation includes -/

/-- C3 counterexample: a payment that carries a non-null, non-empty
`affiliateId` but no `affiliateName`.  The claim says it must be included in
the affiliate aggregation; `getTopAffiliates` produces an empty leaderboard
for it, because the guard `payment.affiliateId && payment.affiliateName`
also requires a truthy name. -/
def pC3x : Payment :=
  ⟨"p9", "u9", "Zoe", 50, "USD", "pr", "Pr", some "aff_1", none,
    some (some 5)⟩

theorem C3_counterexample :
    pC3x.affiliateId = some "aff_1" ∧
    getTopAffiliates [pC3x] DateRange.all 0 = [] := by
  refine ⟨rfl, by decide⟩

theorem foldl_affUpd_total (v : AffTotal) (xs : List Payment) :
    (xs.foldl
      (fun v p => { v with total := v.total + p.amount, count := v.count + 1 })
      v).total = v.total + (xs.map Payment.amount).sum := by
  induction xs generalizing v with
  | nil => simp
  | cons x xs ih =>
    rw [List.foldl_cons, ih]
    simp
    ring

theorem foldl_affUpd_count (v : AffTotal) (xs : List Payment) :
    (xs.foldl
      (fun v p => { v with total := v.total + p.amount, count := v.count + 1 })
      v).count = v.count + (xs.length : Int) := by
  induction xs generalizing v with
  | nil => simp
  | cons x xs ih =>
    rw [List.foldl_cons, ih]
    simp
    ring

/-- C3 as amended: a payment contributes to the affiliate aggregation iff it
carries BOTH a truthy (non-null, non-empty) `affiliateId` equal to the
group's key AND a truthy `affiliateName` — the name requirement is a second
exclusion condition beyond the claim's — and every contributing payment's
amount is added to that affiliate's total while its count grows by exactly
one per contributing payment. -/
theorem C3_affiliate_inclusion (payments : List Payment) (range : DateRange)
    (now : Int) (a : String) :
    (∀ p : Payment, affKey p = some a ↔
      p.affiliateId = some a ∧ a ≠ "" ∧ p.affiliateName.getD "" ≠ "") ∧
    ((affiliateTotals (filteredPayments payments range now)).find a = none ↔
      (filteredPayments payments range now).filter
        (fun p => affKey p = some a) = []) ∧
    (∀ d, (affiliateTotals (filteredPayments payments range now)).find a =
        some d →
      d.total = (((filteredPayments payments range now).filter
          (fun p => affKey p = some a)).map Payment.amount).sum ∧
      d.count = (((filteredPayments payments range now).filter
          (fun p => affKey p = some a)).length : Int)) := by
  refine ⟨?_, ?_, ?_⟩
  · intro p
    cases haid : p.affiliateId with
    | none => simp [affKey, haid]
    | some aid =>
      cases han : p.affiliateName with
      | none => simp [affKey, haid, han]
      | some aname =>
        by_cases hcond : aid ≠ "" ∧ aname ≠ ""
        · simp only [affKey, haid, han, if_pos hcond, Option.some.injEq,
            Option.getD_some]
          constructor
          · rintro rfl
            exact ⟨rfl, hcond.1, hcond.2⟩
          · rintro ⟨h1, _, _⟩
            exact h1
        · simp only [affKey, haid, han, if_neg hcond, Option.some.injEq,
            Option.getD_some]
          constructor
          · intro h
            exact absurd h (by simp)
          · rintro ⟨h1, h2, h3⟩
            exact absurd ⟨h1 ▸ h2, h3⟩ hcond
  · rw [affiliateTotals, find_groupBy]
    cases hcase : (filteredPayments payments range now).filter
        (fun p => decide (affKey p = some a)) with
    | nil => simp
    | cons x xs => simp
  · intro d hd
    rw [affiliateTotals, find_groupBy] at hd
    cases hcase : (filteredPayments payments range now).filter
        (fun p => decide (affKey p = some a)) with
    | nil =>
      rw [hcase] at hd
      simp at hd
    | cons x xs =>
      rw [hcase] at hd
      simp only [Option.some.injEq] at hd
      constructor
      · rw [← hd, foldl_affUpd_total]
        simp
      · rw [← hd, foldl_affUpd_count]
        simp
        ring

/-- Concrete payment used to witness `C3_affiliate_inclusion`: both affiliate
fields truthy. -/
def pC3w : Payment :=
  ⟨"p1", "u1", "Alice", 50, "USD", "pr", "Pr", some "aff_1", some "Bob",
    some (some 5)⟩

theorem C3_affiliate_inclusion_witness :
    (⟨"Bob", 50, 1⟩ : AffTotal).total =
      (((filteredPayments [pC3w] DateRange.all 0).filter
        (fun p => affKey p = some "aff_1")).map Payment.amount).sum ∧
    (⟨"Bob", 50, 1⟩ : AffTotal).count =
      (((filteredPayments [pC3w] DateRange.all 0).filter
        (fun p => affKey p = some "aff_1")).length : Int) :=
  (C3_affiliate_inclusion [pC3w] DateRange.all 0 "aff_1").2.2
    ⟨"Bob", 50, 1⟩ (by decide)

/-! ## JS string-field helpers used by the fetch and analytics layers -/

/-- A `||`-fallback chain over string-or-absent fields ending in a default
literal: returns the first truthy (present, non-empty) string, else the
default. -/
def firstTruthyS (fields : List (Option String)) (dflt : String) : String :=
  match fields with
  | [] => dflt
  | f :: rest =>
    match f with
    | some s => if s ≠ "" then s else firstTruthyS rest dflt
    | none => firstTruthyS rest dflt

/-- `a || b` over string-or-absent values with no default: the first operand
when truthy, otherwise the second as-is. -/
def orOptS (a b : Option String) : Option String :=
  match a with
  | some s => if s ≠ "" then some s else b
  | none => b

/-- `a ?? b` over string-or-absent values (skips only absence, keeps `""`). -/
def coalesceOptS (a b : Option String) : Option String :=
  match a with
  | some s => some s
  | none => b

/-- A `string | null` value as a `RawVal`. -/
def optToRaw : Option String → RawVal
  | none => RawVal.vnull
  | some s => RawVal.vstr s

/-- Reads a JS integer literal (optional sign, digits) from the head of the
input, ignoring anything after the digits (like `parseInt`); `none` when no
digits are found. -/
def readInteger (cs : List Char) : Option Int :=
  match cs with
  | '-' :: rest =>
    let (v, n, _) := readDigits rest
    if n = 0 then none else some (-(v : Int))
  | '+' :: rest =>
    let (v, n, _) := readDigits rest
    if n = 0 then none else some (v : Int)
  | _ =>
    let (v, n, _) := readDigits cs
    if n = 0 then none else some (v : Int)

/-- Truncation of a rational toward zero, as JS string formatting followed by
`parseInt` behaves on a finite decimal. -/
def ratTrunc (q : ℚ) : Int := q.num / (q.den : Int)

/-- JS `parseInt(v, 10)`: converts to string, reads the leading integer;
`parseInt("undefined")` and `parseInt("null")` are NaN (`none`). -/
def parseIntV : RawVal → Option Int
  | .vundef => none
  | .vnull => none
  | .vnum q => some (ratTrunc q)
  | .vstr s => readInteger s.toList

/-! ## Amount normalization (C7)

Two different amount normalizations exist in the source: the fetch layer's
`fetchPayments` (src/unnamed part_001, line 374) uses
`parseFloat(payment.amount || payment.total_amount || 0)`, while
`getCompanyAnalytics` (src/lib/whop/data.ts, lines 64-69 and 338) uses
`Number(p.amount) || Number(p.price) || Number(p.total) ||
Number(p.total_amount) || 0`. -/

/-- `parseFloat(payment.amount || payment.total_amount || 0)`. -/
def fetchPaymentsAmount (amount total_amount : RawVal) : JSNum :=
  parseFloatV (orV amount (orV total_amount (RawVal.vnum 0)))

/-- `Number(p.amount) || Number(p.price) || Number(p.total) ||
Number(p.total_amount) || 0`. -/
def analyticsAmount (amount price total total_amount : RawVal) : JSNum :=
  orN (toNumber amount) (orN (toNumber price) (orN (toNumber total)
    (orN (toNumber total_amount) (some 0))))

/-- A raw purchase record as read by the spend aggregation of
`getCompanyAnalytics` (a non-null record; `if (!p) continue` is the caller's
guard). -/
structure RawPurchase where
  member_id : RawVal
  user_id : RawVal
  customer_id : RawVal
  buyer_id : RawVal
  amount : RawVal
  price : RawVal
  total : RawVal
  total_amount : RawVal
deriving DecidableEq, Repr

/-- `p.member_id ?? p.user_id ?? p.customer_id ?? p.buyer_id ?? null`. -/
def purchaseMemberId (p : RawPurchase) : RawVal :=
  coalesce p.member_id (coalesce p.user_id (coalesce p.customer_id
    (coalesce p.buyer_id RawVal.vnull)))

/-- The per-member accumulator `{ total: number; count: number }` of the
spend aggregation. -/
structure SpendStats where
  total : ℚ
  count : Int
deriving DecidableEq, Repr

/-- One iteration of the spend loop of `getCompanyAnalytics` (lines 57-77):
skip records whose coalesced member id is falsy (`if (!memberId) continue`);
otherwise add `Number.isFinite(amount) ? amount : 0` to the member's total
and increment its count by one. -/
def spendStep (m : AList SpendStats) (p : RawPurchase) : AList SpendStats :=
  if truthyV (purchaseMemberId p) then
    let amount := analyticsAmount p.amount p.price p.total p.total_amount
    let k := jsToString (purchaseMemberId p)
    let prev := (m.find k).getD ⟨0, 0⟩
    m.set k
      ⟨prev.total + (match amount with | some q => q | none => 0),
        prev.count + 1⟩
  else m

/-- The spend aggregation `spendByMember` of `getCompanyAnalytics`. -/
def spendByMember (purchases : List RawPurchase) : AList SpendStats :=
  purchases.foldl spendStep []

/-! ## The fetch layer (src/unnamed part_001): C8 -/

/-- A raw API payment record: the fields the `fetchPayments` normalization
reads.  Nested paths (`payment.user?.id` etc.) are flattened into fields;
date-string fields are carried as `DateField`. -/
structure RawApiPayment where
  id : Option String
  user_nested_id : Option String
  user_id : Option String
  user_username : Option String
  user_name : Option String
  user_email : Option String
  amount : RawVal
  total_amount : RawVal
  currency : Option String
  product_nested_id : Option String
  product_id : Option String
  product_name : Option String
  affiliate_nested_id : Option String
  affiliate_id : Option String
  affiliate_username : Option String
  affiliate_name : Option String
  date : DateField
  created_at : DateField
  createdAt : DateField
deriving DecidableEq, Repr

/-- A normalized payment as `fetchPayments` produces it: shaped like
`Payment`, but its amount is a JS number that can be NaN (`none`). -/
structure FetchedPayment where
  id : String
  userId : String
  userName : String
  amount : JSNum
  currency : String
  productId : String
  productName : String
  affiliateId : Option String
  affiliateName : Option String
  createdAt : DateField
deriving DecidableEq, Repr

/-- The per-record normalization of `fetchPayments` (lines 370-381).
`rndId` stands for the `String(Math.random())` fresh id used when the record
has no id; the `new Date().toISOString()` fallback for a record with no date
becomes the current time `now`. -/
def normalizePayment (now : Int) (rndId : String) (p : RawApiPayment) :
    FetchedPayment :=
  { id := firstTruthyS [p.id] rndId
    userId := firstTruthyS [p.user_nested_id, p.user_id] ""
    userName := firstTruthyS [p.user_username, p.user_name, p.user_email]
      "Unknown User"
    amount := fetchPaymentsAmount p.amount p.total_amount
    currency := firstTruthyS [p.currency] "USD"
    productId := firstTruthyS [p.product_nested_id, p.product_id] ""
    productName := firstTruthyS [p.product_name] "Unknown Product"
    affiliateId := orOptS p.affiliate_nested_id p.affiliate_id
    affiliateName := orOptS p.affiliate_username p.affiliate_name
    createdAt :=
      match resolveDate p.date (resolveDate p.created_at p.createdAt) with
      | some d => some d
      | none => some (some now) }

/-- The hard-coded mock payment dataset `getMockPayments` (lines 277-346):
six payments relative to `Date.now()`. -/
def getMockPayments (now : Int) : List FetchedPayment :=
  [ { id := "pay_1", userId := "user_1", userName := "Alice Johnson",
      amount := some (29999 / 100), currency := "USD", productId := "prod_1",
      productName := "Premium Membership", affiliateId := some "aff_1",
      affiliateName := some "Bob Smith",
      createdAt := some (some (now - 86400000)) },
    { id := "pay_2", userId := "user_2", userName := "Charlie Brown",
      amount := some (14999 / 100), currency := "USD", productId := "prod_2",
      productName := "Basic Plan", affiliateId := none,
      affiliateName := none, createdAt := some (some (now - 172800000)) },
    { id := "pay_3", userId := "user_1", userName := "Alice Johnson",
      amount := some (9999 / 100), currency := "USD", productId := "prod_1",
      productName := "Premium Membership", affiliateId := none,
      affiliateName := none, createdAt := some (some (now - 259200000)) },
    { id := "pay_4", userId := "user_3", userName := "David Wilson",
      amount := some (49999 / 100), currency := "USD", productId := "prod_3",
      productName := "Enterprise Plan", affiliateId := some "aff_2",
      affiliateName := some "Eve Davis",
      createdAt := some (some (now - 345600000)) },
    { id := "pay_5", userId := "user_4", userName := "Frank Miller",
      amount := some (19999 / 100), currency := "USD", productId := "prod_1",
      productName := "Premium Membership", affiliateId := some "aff_1",
      affiliateName := some "Bob Smith",
      createdAt := some (some (now - 432000000)) },
    { id := "pay_6", userId := "user_2", userName := "Charlie Brown",
      amount := some (14999 / 100), currency := "USD", productId := "prod_2",
      productName := "Basic Plan", affiliateId := none,
      affiliateName := none, createdAt := some (some (now - 518400000)) } ]

/-- `fetchPayments` (lines 355-393) after the no-context check, as a function
of the API call's outcome: the `try` body maps the raw records through the
normalization; EVERY caught error returns the mock dataset — the development
401/403 branch and the generic catch alike — never an empty list. -/
def fetchPayments (apiResult : Except String (List RawApiPayment))
    (now : Int) (rndId : String) : List FetchedPayment :=
  match apiResult with
  | .ok records => records.map (normalizePayment now rndId)
  | .error _ => getMockPayments now

/-- A raw API membership record: the fields the `fetchMembers` normalization
reads. -/
structure RawApiMembership where
  id : Option String
  user_nested_id : Option String
  user_id : Option String
  user_username : Option String
  user_name : Option String
  user_email : Option String
  product_nested_id : Option String
  product_id : Option String
  product_name : Option String
  status : Option String
  last_activity_at : DateField
  lastActivityAt : DateField
  joined_at : DateField
  activity_count : RawVal
  activityCount : RawVal
deriving DecidableEq, Repr

/-- A normalized membership as `fetchMembers` produces it; its
`activityCount` is a `parseInt` result that can be NaN (`none`). -/
structure FetchedMembership where
  id : String
  userId : String
  userName : String
  productId : String
  productName : String
  status : String
  lastActivityAt : DateField
  activityCount : Option Int
deriving DecidableEq, Repr

/-- The per-record normalization of `fetchMembers` (lines 556-565). -/
def normalizeMembership (now : Int) (rndId : String) (m : RawApiMembership) :
    FetchedMembership :=
  { id := firstTruthyS [m.id] rndId
    userId := firstTruthyS [m.user_nested_id, m.user_id] ""
    userName := firstTruthyS [m.user_username, m.user_name, m.user_email]
      "Unknown User"
    productId := firstTruthyS [m.product_nested_id, m.product_id] ""
    productName := firstTruthyS [m.product_name] "Unknown Product"
    status := firstTruthyS [m.status] "unknown"
    lastActivityAt :=
      match resolveDate m.last_activity_at
          (resolveDate m.lastActivityAt m.joined_at) with
      | some d => some d
      | none => some (some now)
    activityCount :=
      parseIntV (orV m.activity_count (orV m.activityCount (RawVal.vnum 0))) }

/-- The hard-coded mock membership dataset `getMockMembers` (lines 469-532):
six active members relative to `Date.now()`. -/
def getMockMembers (now : Int) : List FetchedMembership :=
  [ { id := "mem_1", userId := "user_1", userName := "Alice Johnson",
      productId := "prod_1", productName := "Premium Membership",
      status := "active", lastActivityAt := some (some (now - 3600000)),
      activityCount := some 42 },
    { id := "mem_2", userId := "user_2", userName := "Charlie Brown",
      productId := "prod_2", productName := "Basic Plan",
      status := "active", lastActivityAt := some (some (now - 7200000)),
      activityCount := some 38 },
    { id := "mem_3", userId := "user_3", userName := "David Wilson",
      productId := "prod_3", productName := "Enterprise Plan",
      status := "active", lastActivityAt := some (some (now - 1800000)),
      activityCount := some 55 },
    { id := "mem_4", userId := "user_4", userName := "Frank Miller",
      productId := "prod_1", productName := "Premium Membership",
      status := "active", lastActivityAt := some (some (now - 5400000)),
      activityCount := some 31 },
    { id := "mem_5", userId := "user_5", userName := "Helen Taylor",
      productId := "prod_2", productName := "Basic Plan",
      status := "active", lastActivityAt := some (some (now - 900000)),
      activityCount := some 47 },
    { id := "mem_6", userId := "user_6", userName := "Ian Moore",
      productId := "prod_1", productName := "Premium Membership",
      status := "active", lastActivityAt := some (some (now - 10800000)),
      activityCount := some 29 } ]

/-- `fetchMembers` (lines 541-577) after the no-context check: the `try`
body maps the raw records; every caught error returns the mock dataset. -/
def fetchMembers (apiResult : Except String (List RawApiMembership))
    (now : Int) (rndId : String) : List FetchedMembership :=
  match apiResult with
  | .ok records => records.map (normalizeMembership now rndId)
  | .error _ => getMockMembers now

/-! ## Session verification (src/unnamed part_001, verifyWhopTokenOrRequest):
C9 -/

/-- The decoded JWT payload fields that the session-verification chain
reads (`install?.company_id` flattened). -/
structure RawPayload where
  user_id : RawVal
  id : RawVal
  company_id : RawVal
  install_company_id : RawVal
  companyId : RawVal
  tenantId : RawVal
  email : RawVal
deriving DecidableEq, Repr

/-- The `WhopUser` produced by `getWhopUser`: `whopUserId` is a string (the
source builds it with `String(...)`), `companyId` is `string | null`. -/
structure WhopUser where
  whopUserId : String
  companyId : Option String
  email : Option String
  raw : RawPayload
deriving DecidableEq, Repr

/-- The companyId resolution chain of `verifyWhopTokenOrRequest`
(lines 101-106): `whopUser.companyId || whopUser.raw?.company_id ||
whopUser.raw?.install?.company_id || whopUser.raw?.tenantId || null`. -/
def sessionCompanyId (u : WhopUser) : RawVal :=
  orV (optToRaw u.companyId) (orV u.raw.company_id
    (orV u.raw.install_company_id (orV u.raw.tenantId RawVal.vnull)))

/-- The session object `verifyWhopTokenOrRequest` returns on success. -/
structure VerifiedSession where
  companyId : String
  whopUserId : String
  email : Option String
  raw : RawPayload
deriving DecidableEq, Repr

/-- `verifyWhopTokenOrRequest` (lines 88-119), as a function of the
`getWhopUser` outcome: `null` in, `null` out; otherwise resolve the company
id through the fallback chain and require BOTH a truthy `whopUserId` and a
truthy company id (`if (!whopUser.whopUserId || !companyId) return null`);
on success the returned `companyId` is `String(companyId)`. -/
def verifyWhopTokenOrRequest (whopUser : Option WhopUser) :
    Option VerifiedSession :=
  match whopUser with
  | none => none
  | some u =>
    if u.whopUserId ≠ "" ∧ truthyV (sessionCompanyId u) then
      some ⟨jsToString (sessionCompanyId u), u.whopUserId, u.email, u.raw⟩
    else none

/-! ## The random-winner pool (src/lib/whop/data.ts lines 155-181): C10 -/

/-- An analytics `LeaderboardEntry` of src/lib/whop/data.ts: loosely typed,
every field beyond `id`/`name` optional. -/
structure AEntry where
  id : String
  name : String
  handle : Option String
  totalSpend : Option ℚ
  lastActiveAt : Option String
  purchasesCount : Option Int
deriving DecidableEq, Repr

/-- A raw member record, as consulted by the pool's fallback branch for its
name fields. -/
structure RawMember where
  username : Option String
  handle : Option String
  name : Option String
  display_name : Option String
deriving DecidableEq, Repr

/-- The fallback entry the pool builds for an id on neither leaderboard
(dead in practice, since every pooled id comes from one of them):
`memberById.get(id) ?? {}` then the name fallback chain. -/
def poolFallbackEntry (memberById : AList RawMember) (id : String) : AEntry :=
  let m := (memberById.find id).getD ⟨none, none, none, none⟩
  { id := id
    name := firstTruthyS [m.username, m.handle, m.name, m.display_name]
      ("Member " ++ id)
    handle := coalesceOptS m.handle m.username
    totalSpend := none
    lastActiveAt := none
    purchasesCount := none }

/-- The body of the pool's `.map((id) => ...)` callback:
`topSpenders.find(...) ?? mostActiveMembers.find(...) ?? null`, falling back
to a member-derived entry when the id is on neither leaderboard. -/
def poolBuildEntry (topSpenders mostActiveMembers : List AEntry)
    (memberById : AList RawMember) (a : String) : AEntry :=
  match (topSpenders.find? (fun m => m.id = a)).orElse
      (fun _ => mostActiveMembers.find? (fun m => m.id = a)) with
  | some baseMember => baseMember
  | none => poolFallbackEntry memberById a

/-- Step 7 of `getCompanyAnalytics`: the random-winner pool.
`Array.from(new Set([...topSpenders ids, ...mostActiveMembers ids]))` is the
first-occurrence deduplication of the concatenated id lists; each id is
mapped back to its entry (top-spenders first, then most-active, then the
fallback); `.slice(0, 200)` caps the pool at 200 entries. -/
def randomWinnerPool (topSpenders mostActiveMembers : List AEntry)
    (memberById : AList RawMember) : List AEntry :=
  ((dedupFirst (topSpenders.map AEntry.id ++
      mostActiveMembers.map AEntry.id)).map
    (poolBuildEntry topSpenders mostActiveMembers memberById)).take 200

/-! ## C7: amount coercion of missing / non-numeric amounts -/

/-- A raw API payment whose `amount` field holds the truthy non-numeric
string `"abc"`. -/
def pC7raw : RawApiPayment :=
  { id := some "p1", user_nested_id := none, user_id := some "u1",
    user_username := none, user_name := some "Alice", user_email := none,
    amount := RawVal.vstr "abc", total_amount := RawVal.vundef,
    currency := none, product_nested_id := none, product_id := none,
    product_name := none, affiliate_nested_id := none, affiliate_id := none,
    affiliate_username := none, affiliate_name := none,
    date := some (some 5), created_at := none, createdAt := none }

/-- C7 counterexample: a payment whose `amount` field holds the truthy
non-numeric string `"abc"`.  The claim says normalization coerces the amount
to 0; `fetchPayments` computes `parseFloat("abc")`, which is NaN, not 0 (the
record itself is kept, one output record per input record). -/
theorem C7_counterexample :
    (normalizePayment 0 "r" pC7raw).amount = none ∧
    (normalizePayment 0 "r" pC7raw).amount ≠ some 0 ∧
    fetchPayments (Except.ok [pC7raw]) 0 "r" =
      [normalizePayment 0 "r" pC7raw] := by
  refine ⟨by decide, by decide, rfl⟩

/-- C7 as amended: a payment with a MISSING amount is coerced to 0 by the
`fetchPayments` normalization; in `getCompanyAnalytics` every amount chain
whose fields are all missing or non-numeric (each `Number(...)` falsy)
coerces to 0, and such a record is still aggregated — it contributes 0 to
the member's total and still increments the member's count by one; but in
`fetchPayments` a truthy amount string that does not parse as a number
normalizes to NaN rather than 0 (the record itself is still kept). -/
theorem C7_amount_coercion :
    fetchPaymentsAmount RawVal.vundef RawVal.vundef = some 0 ∧
    (∀ a p t ta : RawVal,
      truthyN (toNumber a) = false → truthyN (toNumber p) = false →
      truthyN (toNumber t) = false → truthyN (toNumber ta) = false →
      analyticsAmount a p t ta = some 0) ∧
    (∀ (m : AList SpendStats) (x : RawPurchase),
      truthyV (purchaseMemberId x) = true →
      truthyN (analyticsAmount x.amount x.price x.total x.total_amount) =
        false →
      (spendStep m x).find (jsToString (purchaseMemberId x)) =
        some ⟨((m.find (jsToString (purchaseMemberId x))).getD ⟨0, 0⟩).total,
          ((m.find (jsToString (purchaseMemberId x))).getD ⟨0, 0⟩).count +
            1⟩) ∧
    (∀ (s : String) (ta : RawVal), s ≠ "" → readDecimal s.toList = none →
      fetchPaymentsAmount (RawVal.vstr s) ta = none) := by
  refine ⟨by decide, ?_, ?_, ?_⟩
  · intro a p t ta ha hp ht hta
    rw [analyticsAmount, orN, if_neg (by simp [ha]), orN,
      if_neg (by simp [hp]), orN, if_neg (by simp [ht]), orN,
      if_neg (by simp [hta])]
  · intro m x hmem hzero
    rw [spendStep, if_pos hmem]
    show (m.set (jsToString (purchaseMemberId x)) _).find
        (jsToString (purchaseMemberId x)) = _
    rw [AList.find_set_self]
    congr 1
    cases hA : analyticsAmount x.amount x.price x.total x.total_amount with
    | none => simp [hA]
    | some q =>
      rw [hA] at hzero
      have hq : q = 0 := by
        simpa [truthyN] using hzero
      simp [hA, hq]
  · intro s ta hs hparse
    rw [fetchPaymentsAmount, orV, if_pos (by simpa [truthyV] using hs)]
    show (readDecimal s.toList).map Prod.fst = none
    rw [hparse]
    rfl

/-- A concrete purchase record used to witness `C7_amount_coercion`: a truthy
member id and four amount fields that are each missing or non-numeric. -/
def xC7 : RawPurchase :=
  ⟨RawVal.vstr "u1", RawVal.vundef, RawVal.vundef, RawVal.vundef,
    RawVal.vstr "abc", RawVal.vundef, RawVal.vnull, RawVal.vstr ""⟩

theorem C7_amount_coercion_witness :
    analyticsAmount (RawVal.vstr "abc") RawVal.vundef RawVal.vnull
        (RawVal.vstr "") = some 0 ∧
    AList.find (spendStep [] xC7) (jsToString (purchaseMemberId xC7)) =
      some ⟨((AList.find ([] : AList SpendStats)
          (jsToString (purchaseMemberId xC7))).getD ⟨0, 0⟩).total,
        ((AList.find ([] : AList SpendStats)
          (jsToString (purchaseMemberId xC7))).getD ⟨0, 0⟩).count + 1⟩ ∧
    fetchPaymentsAmount (RawVal.vstr "abc") RawVal.vundef = none :=
  ⟨C7_amount_coercion.2.1 (RawVal.vstr "abc") RawVal.vundef RawVal.vnull
      (RawVal.vstr "") (by decide) (by decide) (by decide) (by decide),
    C7_amount_coercion.2.2.1 [] xC7 (by decide) (by decide),
    C7_amount_coercion.2.2.2 "abc" RawVal.vundef (by decide) (by decide)⟩

/-! ## C8: what a fully-failed fetch returns -/

/-- C8 counterexample: a failed payments fetch.  The claim says the function
degrades to an EMPTY collection; the catch branch instead returns the
six-record mock dataset. -/
theorem C8_counterexample :
    fetchPayments (Except.error "network failure") 0 "rnd" =
      getMockPayments 0 ∧
    fetchPayments (Except.error "network failure") 0 "rnd" ≠ [] ∧
    (fetchPayments (Except.error "network failure") 0 "rnd").length = 6 := by
  refine ⟨rfl, ?_, rfl⟩
  intro h
  exact List.noConfusion h

/-- C8 as amended: when the fetch of a resource collection fails entirely,
`fetchPayments` / `fetchMembers` return the built-in MOCK placeholder
dataset for that resource (six fabricated payments / six fabricated
memberships) — not an empty collection — so the downstream leaderboard shows
sample data rather than being empty. -/
theorem C8_fetch_failure_mock_fallback (e : String) (now : Int)
    (rndId : String) :
    fetchPayments (Except.error e) now rndId = getMockPayments now ∧
    fetchMembers (Except.error e) now rndId = getMockMembers now ∧
    (getMockPayments now).length = 6 ∧
    (getMockMembers now).length = 6 ∧
    getMockPayments now ≠ [] ∧
    getMockMembers now ≠ [] := by
  refine ⟨rfl, rfl, rfl, rfl, ?_, ?_⟩
  · intro h
    exact List.noConfusion h
  · intro h
    exact List.noConfusion h

/-! ## C9: sessions without a resolvable companyId -/

theorem sessionCompanyId_cases (u : WhopUser) :
    sessionCompanyId u = optToRaw u.companyId ∨
    sessionCompanyId u = u.raw.company_id ∨
    sessionCompanyId u = u.raw.install_company_id ∨
    sessionCompanyId u = u.raw.tenantId ∨
    sessionCompanyId u = RawVal.vnull := by
  rw [sessionCompanyId]
  by_cases h1 : truthyV (optToRaw u.companyId) = true
  · rw [orV, if_pos h1]
    exact Or.inl rfl
  · rw [orV, if_neg h1]
    by_cases h2 : truthyV u.raw.company_id = true
    · rw [orV, if_pos h2]
      exact Or.inr (Or.inl rfl)
    · rw [orV, if_neg h2]
      by_cases h3 : truthyV u.raw.install_company_id = true
      · rw [orV, if_pos h3]
        exact Or.inr (Or.inr (Or.inl rfl))
      · rw [orV, if_neg h3]
        by_cases h4 : truthyV u.raw.tenantId = true
        · rw [orV, if_pos h4]
          exact Or.inr (Or.inr (Or.inr (Or.inl rfl)))
        · rw [orV, if_neg h4]
          exact Or.inr (Or.inr (Or.inr (Or.inr rfl)))

/-- C9: a decoded session with no resolvable companyId — every link of the
fallback chain falsy — is invalid: `verifyWhopTokenOrRequest` returns `null`
(so callers have no session to run the pipeline with), and whenever it does
return a session, that session's `companyId` is the stringification of one
of the four company fields of the token — never a substituted value such as
the user id. -/
theorem C9_company_required (whopUser : Option WhopUser) :
    (whopUser = none → verifyWhopTokenOrRequest whopUser = none) ∧
    (∀ u, whopUser = some u → truthyV (sessionCompanyId u) = false →
      verifyWhopTokenOrRequest whopUser = none) ∧
    (∀ u s, whopUser = some u →
      verifyWhopTokenOrRequest whopUser = some s →
      truthyV (sessionCompanyId u) = true ∧
      s.companyId = jsToString (sessionCompanyId u) ∧
      (sessionCompanyId u = optToRaw u.companyId ∨
        sessionCompanyId u = u.raw.company_id ∨
        sessionCompanyId u = u.raw.install_company_id ∨
        sessionCompanyId u = u.raw.tenantId)) := by
  refine ⟨?_, ?_, ?_⟩
  · rintro rfl
    rfl
  · rintro u rfl hfalse
    simp [verifyWhopTokenOrRequest, hfalse]
  · rintro u s rfl hs
    rw [verifyWhopTokenOrRequest] at hs
    by_cases hc : u.whopUserId ≠ "" ∧ truthyV (sessionCompanyId u) = true
    · rw [if_pos hc] at hs
      have hsid : s.companyId = jsToString (sessionCompanyId u) := by
        cases hs
        rfl
      refine ⟨hc.2, hsid, ?_⟩
      rcases sessionCompanyId_cases u with h | h | h | h | h
      · exact Or.inl h
      · exact Or.inr (Or.inl h)
      · exact Or.inr (Or.inr (Or.inl h))
      · exact Or.inr (Or.inr (Or.inr h))
      · rw [h] at hc
        exact absurd hc.2 (by simp [truthyV])
    · rw [if_neg hc] at hs
      exact absurd hs (by simp)

/-- A concrete decoded session with a user id but no resolvable company id
anywhere in the fallback chain (its `tenantId` is the falsy empty string). -/
def uC9 : WhopUser :=
  ⟨"user_9", none, none,
    ⟨RawVal.vstr "user_9", RawVal.vundef, RawVal.vnull, RawVal.vundef,
      RawVal.vundef, RawVal.vstr "", RawVal.vundef⟩⟩

theorem C9_company_required_witness :
    verifyWhopTokenOrRequest (some uC9) = none :=
  (C9_company_required (some uC9)).2.1 uC9 rfl (by decide)

/-! ## C10: the random-winner pool -/

theorem poolEntry_id (topSpenders mostActiveMembers : List AEntry)
    (memberById : AList RawMember) (a : String) :
    (poolBuildEntry topSpenders mostActiveMembers memberById a).id = a := by
  rw [poolBuildEntry]
  cases hx : topSpenders.find? (fun m => m.id = a) with
  | some b =>
    have hb := List.find?_some hx
    simp only [Option.orElse, hx]
    exact of_decide_eq_true hb
  | none =>
    cases hy : mostActiveMembers.find? (fun m => m.id = a) with
    | some b =>
      have hb := List.find?_some hy
      simp only [Option.orElse, hx, hy]
      exact of_decide_eq_true hb
    | none =>
      simp only [Option.orElse, hx, hy]
      rfl

/-- C10: the random-winner pool's ids are exactly the first 200 of the
first-occurrence deduplication of the top-spenders ids followed by the
most-active ids; hence the ids are pairwise distinct (each actor appears at
most once even when on both leaderboards), the pool never exceeds 200
entries, and every pooled entry's id comes from one of the two source
leaderboards. -/
theorem C10_pool_dedup_union_cap (topSpenders mostActiveMembers : List AEntry)
    (memberById : AList RawMember) :
    (randomWinnerPool topSpenders mostActiveMembers memberById).map
        AEntry.id =
      (dedupFirst (topSpenders.map AEntry.id ++
        mostActiveMembers.map AEntry.id)).take 200 ∧
    ((randomWinnerPool topSpenders mostActiveMembers memberById).map
        AEntry.id).Nodup ∧
    (randomWinnerPool topSpenders mostActiveMembers memberById).length ≤
      200 ∧
    (∀ e ∈ randomWinnerPool topSpenders mostActiveMembers memberById,
      e.id ∈ topSpenders.map AEntry.id ++
        mostActiveMembers.map AEntry.id) := by
  have hids : (randomWinnerPool topSpenders mostActiveMembers memberById).map
      AEntry.id =
      (dedupFirst (topSpenders.map AEntry.id ++
        mostActiveMembers.map AEntry.id)).take 200 := by
    rw [randomWinnerPool, ← List.map_take, List.map_map]
    have hpt : ∀ a ∈ (dedupFirst (topSpenders.map AEntry.id ++
        mostActiveMembers.map AEntry.id)).take 200,
        (AEntry.id ∘ poolBuildEntry topSpenders mostActiveMembers memberById)
            a = id a := by
      intro a _
      exact poolEntry_id topSpenders mostActiveMembers memberById a
    rw [List.map_congr_left hpt, List.map_id]
  refine ⟨hids, ?_, ?_, ?_⟩
  · rw [hids]
    exact (List.take_sublist 200 _).nodup (dedupFirst_nodup _)
  · have hlen : (randomWinnerPool topSpenders mostActiveMembers
        memberById).length =
        ((randomWinnerPool topSpenders mostActiveMembers memberById).map
          AEntry.id).length := by
      rw [List.length_map]
    rw [hlen, hids, List.length_take]
    exact Nat.min_le_left _ _
  · intro e he
    have hid : e.id ∈ (randomWinnerPool topSpenders mostActiveMembers
        memberById).map AEntry.id := List.mem_map_of_mem AEntry.id he
    rw [hids] at hid
    have : e.id ∈ dedupFirst (topSpenders.map AEntry.id ++
        mostActiveMembers.map AEntry.id) :=
      (List.take_sublist 200 _).mem hid
    exact (mem_dedupFirst _ _).mp this

end Crownboard
